import Mathlib

/-!
Verification of the 2D funnel potential notebook
(`2D_funnel_potential.ipynb`).

The notebook defines a custom OpenMM force `TwoDFunnel` whose energy is the
symbolic expression

  2*cos(2*sqrt(x^2+y^2)) - 8*exp(-(x^2+y^2)) + 0.2*((x/8)^2+(y/8)^2)^3 + 1000.0*z^2

together with a pure evaluation function `TwoDFunnel.potential`, a plotting
helper `TwoDFunnel.plot`, a rejection-sampling initialization of starting
positions, construction of the OpenMM system, and a sampling loop that
alternates position read-back with 250 integrator steps.

This file embeds those pieces and proves properties about them:
* a small expression language `FExpr` models the symbolic force-field string
  handed to OpenMM, with a real-valued denotation `evalFExpr`;
* the in-plane potential and the full energy are real-valued functions;
* the rejection-sampling loop, the masked overwrite, and numpy's `isclose`
  are modelled over `ℚ` (exact arithmetic), with an explicit fuel parameter
  standing for the number of iterations the unbounded `while True` loop is
  allowed to run;
* the sampling loop is modelled parametrically over the external integrator
  (a state type `S` and a single-step function), since the integrator itself
  is an external engine component.
-/

/-! ## The symbolic force-field expression -/

/-- Abstract syntax of the algebra OpenMM's custom-force parser accepts, as
far as the notebook uses it: constants, the three per-particle coordinates,
`+`, `-`, `*`, `/`, `^` with a natural exponent, unary negation, and the
functions `sqrt`, `cos`, `exp`. -/
inductive FExpr where
  | const : ℚ → FExpr
  | varX : FExpr
  | varY : FExpr
  | varZ : FExpr
  | add : FExpr → FExpr → FExpr
  | sub : FExpr → FExpr → FExpr
  | mul : FExpr → FExpr → FExpr
  | div : FExpr → FExpr → FExpr
  | pow : FExpr → Nat → FExpr
  | neg : FExpr → FExpr
  | sqrtF : FExpr → FExpr
  | cosF : FExpr → FExpr
  | expF : FExpr → FExpr

/-- Denotation of an `FExpr` at a particle position `(x, y, z)`. -/
noncomputable def evalFExpr : FExpr → ℝ → ℝ → ℝ → ℝ
  | .const q, _, _, _ => (q : ℝ)
  | .varX, x, _, _ => x
  | .varY, _, y, _ => y
  | .varZ, _, _, z => z
  | .add a b, x, y, z => evalFExpr a x y z + evalFExpr b x y z
  | .sub a b, x, y, z => evalFExpr a x y z - evalFExpr b x y z
  | .mul a b, x, y, z => evalFExpr a x y z * evalFExpr b x y z
  | .div a b, x, y, z => evalFExpr a x y z / evalFExpr b x y z
  | .pow a n, x, y, z => evalFExpr a x y z ^ n
  | .neg a, x, y, z => -(evalFExpr a x y z)
  | .sqrtF a, x, y, z => Real.sqrt (evalFExpr a x y z)
  | .cosF a, x, y, z => Real.cos (evalFExpr a x y z)
  | .expF a, x, y, z => Real.exp (evalFExpr a x y z)

/-- The subexpression `x^2+y^2`. -/
def r2xy : FExpr := .add (.pow .varX 2) (.pow .varY 2)

/-- The expression string built by `TwoDFunnel.__init__`:
`2*cos(2*sqrt(x^2+y^2)) - 8*exp(-(x^2+y^2)) + 0.2*((x/8)^2+(y/8)^2)^3 + 1000.0 * z^2`,
transcribed with Python's left-associative parse of `a - b + c + d`. -/
def forceFieldExpression : FExpr :=
  .add
    (.add
      (.sub
        (.mul (.const 2) (.cosF (.mul (.const 2) (.sqrtF r2xy))))
        (.mul (.const 8) (.expF (.neg r2xy))))
      (.mul (.const 0.2)
        (.pow (.add (.pow (.div .varX (.const 8)) 2)
                    (.pow (.div .varY (.const 8)) 2)) 3)))
    (.mul (.const 1000) (.pow .varZ 2))

/-- The closed-form energy `E(x, y, z)` from the specification. -/
noncomputable def E (x y z : ℝ) : ℝ :=
  2 * Real.cos (2 * Real.sqrt (x ^ 2 + y ^ 2))
    - 8 * Real.exp (-(x ^ 2 + y ^ 2))
    + 0.2 * ((x / 8) ^ 2 + (y / 8) ^ 2) ^ 3
    + 1000.0 * z ^ 2

namespace TwoDFunnel

/-- `TwoDFunnel.potential(x, y)`: the pure-python evaluation of the in-plane
part of the surface,
`2*np.cos(2*np.sqrt(x**2+y**2)) - 8*np.exp(-(x**2+y**2)) + 0.2*((x/8)**2+(y/8)**2)**3`. -/
noncomputable def potential (x y : ℝ) : ℝ :=
  2 * Real.cos (2 * Real.sqrt (x ^ 2 + y ^ 2))
    - 8 * Real.exp (-(x ^ 2 + y ^ 2))
    + 0.2 * ((x / 8) ^ 2 + (y / 8) ^ 2) ^ 3

end TwoDFunnel

/-- The potential written as a function of the squared radius `t = x^2+y^2`
alone; used to state radial symmetry. -/
noncomputable def potentialRadial (t : ℝ) : ℝ :=
  2 * Real.cos (2 * Real.sqrt t) - 8 * Real.exp (-t) + 0.2 * (t / 64) ^ 3

lemma potential_eq_potentialRadial (x y : ℝ) :
    TwoDFunnel.potential x y = potentialRadial (x ^ 2 + y ^ 2) := by
  unfold TwoDFunnel.potential potentialRadial
  have h : (x / 8) ^ 2 + (y / 8) ^ 2 = (x ^ 2 + y ^ 2) / 64 := by ring
  rw [h]

/-- C1: the symbolic force-field expression constructed by
`TwoDFunnel.__init__` denotes exactly the closed-form energy `E(x, y, z)`
at every particle position. -/
theorem forceFieldExpression_denotes_E (x y z : ℝ) :
    evalFExpr forceFieldExpression x y z = E x y z := by
  simp only [forceFieldExpression, r2xy, evalFExpr, E]
  norm_num

/-- C4: `TwoDFunnel.potential(x, y)` is the in-plane part of the force-field
expression, i.e. equals the full energy `E` evaluated at `z = 0`. -/
theorem potential_eq_E_at_z_zero (x y : ℝ) :
    TwoDFunnel.potential x y = E x y 0 := by
  simp only [TwoDFunnel.potential, E]
  norm_num

/-- C5: `TwoDFunnel.potential` is radially symmetric: any two points with the
same squared radius have the same potential, and in particular
`potential(x, y) = potential(-x, -y)`. -/
theorem potential_radially_symmetric (x y a b : ℝ)
    (h : x ^ 2 + y ^ 2 = a ^ 2 + b ^ 2) :
    TwoDFunnel.potential x y = TwoDFunnel.potential a b ∧
      TwoDFunnel.potential x y = TwoDFunnel.potential (-x) (-y) := by
  constructor
  · rw [potential_eq_potentialRadial, potential_eq_potentialRadial, h]
  · rw [potential_eq_potentialRadial x y, potential_eq_potentialRadial (-x) (-y)]
    congr 1
    ring

/-- Witness for C5 at `(3, 4)` and `(5, 0)`, two points of radius 5. -/
theorem potential_radially_symmetric_witness :
    ((3 : ℝ) ^ 2 + 4 ^ 2 = 5 ^ 2 + 0 ^ 2) ∧
      (TwoDFunnel.potential 3 4 = TwoDFunnel.potential 5 0 ∧
        TwoDFunnel.potential 3 4 = TwoDFunnel.potential (-3) (-4)) :=
  ⟨by norm_num, potential_radially_symmetric 3 4 5 0 (by norm_num)⟩

/-! ## Rejection sampling of starting positions

Modelled over `ℚ` (float rounding plays no role in the properties proved
here).  A raw uniform sample `u ∈ [0,1)^3` per particle is turned into a
candidate position by `np.random.rand(nParticles, 3) * [20, 20, 0] +
[-10, -10, 0]`; the loop keeps redrawing until `np.isclose(sum(p**2), r**2)`
holds for every particle at once, overwriting only rejected rows via the
mask arithmetic `new * ~mask + prev * mask`.  The unbounded `while True`
loop is modelled with an explicit fuel parameter. -/

/-- A 3D vector of exact rationals. -/
abbrev Vec3 := ℚ × ℚ × ℚ

/-- `nParticles = 10` from the notebook's parameter cell. -/
def nParticles : Nat := 10

/-- The target starting radius `r = 10`. -/
def rTarget : ℚ := 10

/-- numpy's default absolute tolerance `atol = 1e-8`. -/
def npAtol : ℚ := 1 / 100000000

/-- numpy's default relative tolerance `rtol = 1e-5`. -/
def npRtol : ℚ := 1 / 100000

/-- `np.isclose(a, b)` with default tolerances:
`absolute(a - b) <= (atol + rtol * absolute(b))`. -/
def npIsClose (a b : ℚ) : Bool := |a - b| ≤ npAtol + npRtol * |b|

/-- One candidate row: `u * [20, 20, 0] + [-10, -10, 0]` for a raw uniform
sample `u`. -/
def draw (u : Vec3) : Vec3 :=
  (u.1 * 20 + (-10), u.2.1 * 20 + (-10), u.2.2 * 0 + 0)

/-- A whole batch of candidate rows, one per particle. -/
def drawBatch (us : List Vec3) : List Vec3 := us.map draw

/-- `np.sum(p**2)` over the three coordinates of one row. -/
def sumSq (p : Vec3) : ℚ := p.1 ^ 2 + p.2.1 ^ 2 + p.2.2 ^ 2

/-- One entry of `mask = np.isclose(np.sum(startingPositions**2, axis=1), r**2)`. -/
def accepted (p : Vec3) : Bool := npIsClose (sumSq p) (rTarget ^ 2)

/-- `np.all(mask)`. -/
def allAccepted (pos : List Vec3) : Bool := pos.all accepted

/-- A boolean mask entry as the number numpy multiplies by (`True = 1`,
`False = 0`). -/
def boolToQ (b : Bool) : ℚ := if b then 1 else 0

/-- One row of `startingPositions * ~mask + prev_startingPositions * mask`:
`m` is the mask entry of the previous row `pPrev`, `pNew` the freshly drawn
proposal. -/
def maskedCombine (m : Bool) (pNew pPrev : Vec3) : Vec3 :=
  (pNew.1 * boolToQ (!m) + pPrev.1 * boolToQ m,
   pNew.2.1 * boolToQ (!m) + pPrev.2.1 * boolToQ m,
   pNew.2.2 * boolToQ (!m) + pPrev.2.2 * boolToQ m)

/-- The masked overwrite of the whole ensemble: rows whose mask entry is set
keep their previous value, the rest take the fresh proposal. -/
def maskedUpdate (prev nw : List Vec3) : List Vec3 :=
  List.zipWith (fun p q => maskedCombine (accepted p) q p) prev nw

/-- The `while True` rejection loop, with fuel standing for the number of
iterations it is allowed to run and `us` the stream of raw uniform batches
consumed by the successive `np.random.rand(nParticles, 3)` calls. -/
def rejectLoop : Nat → (Nat → List Vec3) → Nat → List Vec3 → Option (List Vec3)
  | 0, _, _, _ => none
  | fuel + 1, us, k, pos =>
    if allAccepted pos then some pos
    else rejectLoop fuel us (k + 1) (maskedUpdate pos (drawBatch (us k)))

/-- Every drawn row has third coordinate zero. -/
lemma draw_z (u : Vec3) : (draw u).2.2 = 0 := by
  simp [draw]

/-- All rows of the batch `pos` have third coordinate zero. -/
def zZero (pos : List Vec3) : Prop := ∀ p ∈ pos, p.2.2 = 0

lemma drawBatch_z (us : List Vec3) : zZero (drawBatch us) := by
  intro p hp
  simp only [drawBatch, List.mem_map] at hp
  obtain ⟨u, _, rfl⟩ := hp
  exact draw_z u

lemma maskedCombine_z (m : Bool) (pNew pPrev : Vec3)
    (hn : pNew.2.2 = 0) (hp : pPrev.2.2 = 0) :
    (maskedCombine m pNew pPrev).2.2 = 0 := by
  simp [maskedCombine, hn, hp]

lemma maskedUpdate_z (prev nw : List Vec3)
    (hprev : zZero prev) (hnw : zZero nw) : zZero (maskedUpdate prev nw) := by
  induction prev generalizing nw with
  | nil => intro p hp; simp [maskedUpdate] at hp
  | cons p ps ih =>
    cases nw with
    | nil => intro q hq; simp [maskedUpdate] at hq
    | cons q qs =>
      intro t ht
      simp only [maskedUpdate, List.zipWith_cons_cons, List.mem_cons] at ht
      rcases ht with rfl | ht
      · exact maskedCombine_z _ _ _ (hnw q (by simp)) (hprev p (by simp))
      · exact ih qs (fun a ha => hprev a (by simp [ha]))
          (fun a ha => hnw a (by simp [ha])) t ht

lemma rejectLoop_z (fuel : Nat) (us : Nat → List Vec3) (k : Nat)
    (pos out : List Vec3) (hpos : zZero pos)
    (h : rejectLoop fuel us k pos = some out) : zZero out := by
  induction fuel generalizing k pos with
  | zero => simp [rejectLoop] at h
  | succ n ih =>
    rw [rejectLoop] at h
    by_cases hall : allAccepted pos
    · rw [if_pos hall] at h
      cases h
      exact hpos
    · rw [if_neg hall] at h
      exact ih (k + 1) _ (maskedUpdate_z _ _ hpos (drawBatch_z _)) h

lemma rejectLoop_all (fuel : Nat) (us : Nat → List Vec3) (k : Nat)
    (pos out : List Vec3) (h : rejectLoop fuel us k pos = some out) :
    allAccepted out = true := by
  induction fuel generalizing k pos with
  | zero => simp [rejectLoop] at h
  | succ n ih =>
    rw [rejectLoop] at h
    by_cases hall : allAccepted pos
    · rw [if_pos hall] at h
      cases h
      exact hall
    · rw [if_neg hall] at h
      exact ih (k + 1) _ h

lemma accepted_bound {p : Vec3} (h : accepted p = true) :
    |sumSq p - rTarget ^ 2| ≤ npAtol + npRtol * 100 := by
  have h2 := of_decide_eq_true h
  have habs : |rTarget ^ 2| = 100 := by norm_num [rTarget]
  rwa [habs] at h2

/-- Unfolding lemma for one iteration of the rejection loop. -/
lemma rejectLoop_succ (fuel : Nat) (us : Nat → List Vec3) (k : Nat)
    (pos : List Vec3) :
    rejectLoop (fuel + 1) us k pos =
      if allAccepted pos then some pos
      else rejectLoop fuel us (k + 1) (maskedUpdate pos (drawBatch (us k))) :=
  rfl

lemma maskedCombine_true (pNew pPrev : Vec3) :
    maskedCombine true pNew pPrev = pPrev := by
  obtain ⟨a, b, c⟩ := pPrev
  simp [maskedCombine, boolToQ]

lemma maskedCombine_false (pNew pPrev : Vec3) :
    maskedCombine false pNew pPrev = pNew := by
  obtain ⟨a, b, c⟩ := pNew
  simp [maskedCombine, boolToQ]

lemma zipWith_replicate_same {α β γ : Type} (f : α → β → γ) (n : Nat)
    (a : α) (b : β) :
    List.zipWith f (List.replicate n a) (List.replicate n b)
      = List.replicate n (f a b) := by
  induction n with
  | zero => rfl
  | succ m ih => simp [List.replicate_succ, ih]

lemma all_replicate_true {α : Type} (n : Nat) (a : α) (f : α → Bool)
    (hf : f a = true) : (List.replicate n a).all f = true := by
  induction n with
  | zero => rfl
  | succ m ih => simp [List.replicate_succ, hf, ih]

lemma all_replicate_false {α : Type} (n : Nat) (a : α) (f : α → Bool)
    (hf : f a = false) : (List.replicate (n + 1) a).all f = false := by
  simp [List.replicate_succ, hf]

/-- The raw sample `(0, 1/2, 0)` draws the position `(-10, 0, 0)`. -/
lemma draw_half : draw ((0 : ℚ), 1 / 2, 0) = ((-10 : ℚ), 0, 0) := by
  simp only [draw]
  norm_num

/-- The raw sample `(1/2, 1/2, 0)` draws the origin. -/
lemma draw_mid : draw ((1 / 2 : ℚ), 1 / 2, 0) = ((0 : ℚ), 0, 0) := by
  simp only [draw]
  norm_num

/-- A particle at `(-10, 0, 0)` (radius exactly 10) passes the closeness
test. -/
lemma accepted_radius10 : accepted (((-10 : ℚ), 0, 0) : Vec3) = true := by
  simp only [accepted, npIsClose, sumSq, rTarget, npAtol, npRtol]
  rw [decide_eq_true_eq]
  have h1 : ((-10 : ℚ)) ^ 2 + (0 : ℚ) ^ 2 + (0 : ℚ) ^ 2 - (10 : ℚ) ^ 2 = 0 := by
    norm_num
  have h2 : |(10 : ℚ) ^ 2| = 100 := by
    rw [abs_of_nonneg] <;> norm_num
  rw [h1, h2, abs_zero]
  norm_num

/-- A particle at the origin fails the closeness test. -/
lemma accepted_origin : accepted (((0 : ℚ), 0, 0) : Vec3) = false := by
  simp only [accepted, npIsClose, sumSq, rTarget, npAtol, npRtol]
  rw [decide_eq_false_iff_not]
  have h1 : ((0 : ℚ)) ^ 2 + (0 : ℚ) ^ 2 + (0 : ℚ) ^ 2 - (10 : ℚ) ^ 2 = -100 := by
    norm_num
  have h2 : |(10 : ℚ) ^ 2| = 100 := by
    rw [abs_of_nonneg] <;> norm_num
  rw [h1, h2, abs_neg, abs_of_nonneg (by norm_num : (0 : ℚ) ≤ 100)]
  norm_num

/-- C3: if the rejection loop terminates (returns `some out`), it does so on
an iteration where all particles pass the closeness test at once, and every
accepted row then satisfies the in-plane radius predicate
`|x^2 + y^2 - r^2| < 1/500`. -/
theorem rejectLoop_radius (fuel : Nat) (us : Nat → List Vec3)
    (u0 : List Vec3) (k : Nat) (out : List Vec3)
    (h : rejectLoop fuel us k (drawBatch u0) = some out) :
    allAccepted out = true ∧
      ∀ p ∈ out, |p.1 ^ 2 + p.2.1 ^ 2 - rTarget ^ 2| < 1 / 500 := by
  have hall := rejectLoop_all fuel us k _ out h
  refine ⟨hall, fun p hp => ?_⟩
  have hz := rejectLoop_z fuel us k _ out (drawBatch_z u0) h p hp
  have hacc : accepted p = true := by
    have := List.all_eq_true.mp hall p hp
    simpa using this
  have hb := accepted_bound hacc
  have hsum : sumSq p = p.1 ^ 2 + p.2.1 ^ 2 := by
    simp [sumSq, hz]
  rw [hsum] at hb
  calc |p.1 ^ 2 + p.2.1 ^ 2 - rTarget ^ 2| ≤ npAtol + npRtol * 100 := hb
    _ < 1 / 500 := by norm_num [npAtol, npRtol]

/-- Concrete run used as the C3 witness: all 10 particles drawn straight to
`(-10, 0, 0)` are accepted in the first iteration. -/
lemma rejectLoop_demo :
    rejectLoop 1 (fun _ => []) 0
        (drawBatch (List.replicate 10 ((0 : ℚ), 1 / 2, 0)))
      = some (List.replicate 10 ((-10 : ℚ), 0, 0)) := by
  have hb : drawBatch (List.replicate 10 ((0 : ℚ), 1 / 2, 0))
      = List.replicate 10 ((-10 : ℚ), 0, 0) := by
    rw [drawBatch, List.map_replicate, draw_half]
  have hall : allAccepted (List.replicate 10 ((-10 : ℚ), 0, 0)) = true :=
    all_replicate_true 10 _ _ accepted_radius10
  rw [hb]
  have h1 := rejectLoop_succ 0 (fun _ => []) 0
    (List.replicate 10 ((-10 : ℚ), 0, 0))
  rw [h1, hall]
  simp

/-- Witness for C3. -/
theorem rejectLoop_radius_witness :
    (rejectLoop 1 (fun _ => []) 0
        (drawBatch (List.replicate 10 ((0 : ℚ), 1 / 2, 0)))
      = some (List.replicate 10 ((-10 : ℚ), 0, 0))) ∧
    (allAccepted (List.replicate 10 ((-10 : ℚ), 0, 0)) = true ∧
      ∀ p ∈ List.replicate 10 ((((-10 : ℚ), 0, 0)) : Vec3),
        |p.1 ^ 2 + p.2.1 ^ 2 - rTarget ^ 2| < 1 / 500) := by
  refine ⟨rejectLoop_demo, ?_⟩
  exact rejectLoop_radius 1 (fun _ => []) (List.replicate 10 ((0 : ℚ), 1 / 2, 0))
    0 _ rejectLoop_demo

/-- A raw-uniform batch whose drawn positions (all at the origin) fail the
closeness test for every particle. -/
def badBatchU : List Vec3 := List.replicate nParticles ((1 / 2 : ℚ), 1 / 2, 0)

/-- C8: the rejection loop has no iteration cap: on the stream that redraws
`badBatchU` forever (every particle failing each time), the loop exhausts any
amount of fuel without terminating. -/
theorem rejectLoop_never_terminates (fuel k : Nat) :
    rejectLoop fuel (fun _ => badBatchU) k (drawBatch badBatchU) = none := by
  have hdb : drawBatch badBatchU = List.replicate nParticles ((0 : ℚ), 0, 0) := by
    rw [badBatchU, drawBatch, List.map_replicate, draw_mid]
  have hall : allAccepted (List.replicate nParticles ((0 : ℚ), 0, 0)) = false := by
    have h9 : nParticles = 9 + 1 := rfl
    rw [allAccepted, h9]
    exact all_replicate_false 9 _ _ accepted_origin
  have hmu : maskedUpdate (List.replicate nParticles ((0 : ℚ), 0, 0))
      (List.replicate nParticles ((0 : ℚ), 0, 0))
      = List.replicate nParticles ((0 : ℚ), 0, 0) := by
    rw [maskedUpdate, zipWith_replicate_same, accepted_origin,
      maskedCombine_false]
  rw [hdb]
  induction fuel generalizing k with
  | zero => rfl
  | succ n ih =>
    rw [rejectLoop_succ, hall, hdb, hmu]
    simpa using ih (k + 1)

/-- C9: a retry overwrites only rejected rows: any particle whose previous
position already passed the closeness test keeps exactly that position after
the masked update. -/
theorem maskedUpdate_keeps_accepted (prev nw : List Vec3) (i : Nat)
    (h1 : i < prev.length) (h2 : i < nw.length)
    (hacc : accepted (prev.get ⟨i, h1⟩) = true) :
    (maskedUpdate prev nw).get? i = some (prev.get ⟨i, h1⟩) := by
  induction prev generalizing nw i with
  | nil => simp at h1
  | cons p ps ih =>
    cases nw with
    | nil => simp at h2
    | cons q qs =>
      cases i with
      | zero =>
        have hacc' : accepted p = true := hacc
        show some (maskedCombine (accepted p) q p) = some p
        rw [hacc', maskedCombine_true]
      | succ j =>
        have hj1 : j < ps.length := Nat.lt_of_succ_lt_succ h1
        have hj2 : j < qs.length := Nat.lt_of_succ_lt_succ h2
        have hacc' : accepted (ps.get ⟨j, hj1⟩) = true := hacc
        show (maskedUpdate ps qs).get? j = some (ps.get ⟨j, hj1⟩)
        exact ih qs j hj1 hj2 hacc'

/-- Witness for C9: a single accepted row at `(-10, 0, 0)` survives a retry
against the fresh proposal `(1, 2, 3)` unchanged. -/
theorem maskedUpdate_keeps_accepted_witness :
    accepted (((-10 : ℚ), (0 : ℚ), (0 : ℚ)) : Vec3) = true ∧
      (maskedUpdate [((-10 : ℚ), 0, 0)] [((1 : ℚ), 2, 3)]).get? 0
        = some (((-10 : ℚ), 0, 0)) :=
  ⟨accepted_radius10,
   maskedUpdate_keeps_accepted [((-10 : ℚ), 0, 0)] [((1 : ℚ), 2, 3)] 0
     (by norm_num) (by norm_num) accepted_radius10⟩

/-- C10: every candidate row drawn from a raw uniform sample has third
coordinate exactly `0` (the draw is scaled by `[20, 20, 0]` and offset by
`[-10, -10, 0]`), so the 3D sum-of-squares test coincides with the in-plane
radial test. -/
theorem draw_z_zero_inplane (u : Vec3) :
    (draw u).2.2 = 0 ∧
      sumSq (draw u) = (draw u).1 ^ 2 + (draw u).2.1 ^ 2 ∧
      accepted (draw u)
        = npIsClose ((draw u).1 ^ 2 + (draw u).2.1 ^ 2) (rTarget ^ 2) := by
  have hz := draw_z u
  have hsum : sumSq (draw u) = (draw u).1 ^ 2 + (draw u).2.1 ^ 2 := by
    simp [sumSq, hz]
  exact ⟨hz, hsum, by rw [accepted, hsum]⟩

/-! ## The sampling loop

The integrator is an external engine component, so the loop is modelled
parametrically over an engine state type `S` and a single integrator step
`stepOnce`; `getPos` is the state read-back
(`context.getState(getPositions=True)...`).  The notebook's loop body is

    x = context.getState(getPositions=True).getPositions(...)
    plt.scatter(x[:,0], x[:,1], ...)
    integrator.step(250)

i.e. it reads the positions first and steps afterwards. -/

/-- Projection of the ensemble's 3D positions to the (x, y) plane, as used
by `plt.scatter(x[:,0], x[:,1], ...)`. -/
def projectXY (pos : List Vec3) : List (ℚ × ℚ) :=
  pos.map (fun p => (p.1, p.2.1))

/-- The sampling loop: each iteration emits the projection of the current
positions as one snapshot and then advances the engine by 250 integrator
steps; `n` is the number of iterations (1000 in the notebook). -/
def samplingLoop {S : Type} (stepOnce : S → S) (getPos : S → List Vec3) :
    Nat → S → List (List (ℚ × ℚ)) × S
  | 0, s => ([], s)
  | n + 1, s =>
    (projectXY (getPos s)
        :: (samplingLoop stepOnce getPos n (stepOnce^[250] s)).1,
      (samplingLoop stepOnce getPos n (stepOnce^[250] s)).2)

lemma samplingLoop_succ {S : Type} (stepOnce : S → S)
    (getPos : S → List Vec3) (n : Nat) (s : S) :
    (samplingLoop stepOnce getPos (n + 1) s).1
      = projectXY (getPos s)
          :: (samplingLoop stepOnce getPos n (stepOnce^[250] s)).1 :=
  rfl

lemma samplingLoop_length {S : Type} (stepOnce : S → S)
    (getPos : S → List Vec3) (n : Nat) (s : S) :
    (samplingLoop stepOnce getPos n s).1.length = n := by
  induction n generalizing s with
  | zero => rfl
  | succ m ih =>
    rw [samplingLoop_succ, List.length_cons, ih]

lemma samplingLoop_get (stepOnce : ℚ → ℚ) (getPos : ℚ → List Vec3)
    (n : Nat) (s : ℚ) (i : Nat) (hi : i < n) :
    (samplingLoop stepOnce getPos n s).1.get? i
      = some (projectXY (getPos (stepOnce^[250 * i] s))) := by
  induction n generalizing s i with
  | zero => exact absurd hi (Nat.not_lt_zero i)
  | succ m ih =>
    cases i with
    | zero =>
      rw [samplingLoop_succ, List.get?_cons_zero, Nat.mul_zero,
        Function.iterate_zero_apply]
    | succ j =>
      have hj : j < m := Nat.lt_of_succ_lt_succ hi
      have hmul : 250 * (j + 1) = 250 * j + 250 := by ring
      rw [samplingLoop_succ, List.get?_cons_succ, ih (stepOnce^[250] s) j hj,
        ← Function.iterate_add_apply, ← hmul]

lemma samplingLoop_shape {S : Type} (stepOnce : S → S)
    (getPos : S → List Vec3) (N : Nat)
    (hN : ∀ s, (getPos s).length = N) (n : Nat) (s : S) :
    ∀ snap ∈ (samplingLoop stepOnce getPos n s).1, snap.length = N := by
  induction n generalizing s with
  | zero => intro snap h; simp [samplingLoop] at h
  | succ m ih =>
    intro snap h
    rw [samplingLoop_succ] at h
    rcases List.mem_cons.mp h with rfl | h
    · rw [projectXY, List.length_map, hN]
    · exact ih _ snap h

/-- C2 (amended): the sampling loop emits exactly `n` snapshots, each of
shape `(N, 2)`, and the `i`-th snapshot is the (x, y) projection of the
positions after `250 * i` integrator steps — the read-back happens at the
START of each iteration, before that iteration's 250 steps. -/
theorem samplingLoop_snapshots (stepOnce : ℚ → ℚ)
    (getPos : ℚ → List Vec3) (N : Nat)
    (hN : ∀ s, (getPos s).length = N) (n : Nat) (s : ℚ) :
    (samplingLoop stepOnce getPos n s).1.length = n ∧
      (∀ i, i < n → (samplingLoop stepOnce getPos n s).1.get? i
        = some (projectXY (getPos (stepOnce^[250 * i] s)))) ∧
      ∀ snap ∈ (samplingLoop stepOnce getPos n s).1, snap.length = N :=
  ⟨samplingLoop_length stepOnce getPos n s,
   fun i hi => samplingLoop_get stepOnce getPos n s i hi,
   samplingLoop_shape stepOnce getPos N hN n s⟩

/-- Witness for C2 (amended) with a concrete one-particle engine whose state
is a step counter. -/
theorem samplingLoop_snapshots_witness :
    (∀ s : ℚ, ((fun s : ℚ => [((s, 0, 0) : Vec3)]) s).length = 1) ∧
      ((samplingLoop (fun s : ℚ => s + 1)
          (fun s : ℚ => [((s, 0, 0) : Vec3)]) 2 0).1.length = 2 ∧
        (∀ i, i < 2 →
          (samplingLoop (fun s : ℚ => s + 1)
              (fun s : ℚ => [((s, 0, 0) : Vec3)]) 2 0).1.get? i
            = some (projectXY ((fun s : ℚ => [((s, 0, 0) : Vec3)])
                ((fun s : ℚ => s + 1)^[250 * i] 0)))) ∧
        ∀ snap ∈ (samplingLoop (fun s : ℚ => s + 1)
            (fun s : ℚ => [((s, 0, 0) : Vec3)]) 2 0).1, snap.length = 1) :=
  ⟨fun _ => rfl,
   samplingLoop_snapshots (fun s : ℚ => s + 1)
     (fun s : ℚ => [((s, 0, 0) : Vec3)]) 1 (fun _ => rfl) 2 0⟩

lemma iterate_add_one (n : Nat) (m : ℚ) :
    (fun s : ℚ => s + 1)^[n] m = m + n := by
  induction n generalizing m with
  | zero => simp
  | succ k ih =>
    rw [Function.iterate_succ_apply, ih]
    push_cast
    ring

/-- C2 counterexample: the claim that each iteration FIRST performs the 250
steps and only then reads back the positions fails on the code.  With a step
counter as engine state, the first (and only) snapshot of a one-sample run
is the projection of the INITIAL positions, not of the positions after that
iteration's 250 steps. -/
theorem samplingLoop_counterexample :
    ¬ ((samplingLoop (fun s : ℚ => s + 1)
          (fun s : ℚ => [((s, 0, 0) : Vec3)]) 1 0).1.get? 0
        = some (projectXY ((fun s : ℚ => [((s, 0, 0) : Vec3)])
            ((fun s : ℚ => s + 1)^[250] 0)))) := by
  intro h
  have h1 : (samplingLoop (fun s : ℚ => s + 1)
      (fun s : ℚ => [((s, 0, 0) : Vec3)]) 1 0).1.get? 0
      = some [((0 : ℚ), (0 : ℚ))] := rfl
  have h2 : (fun s : ℚ => s + 1)^[250] 0 = 250 := by
    rw [iterate_add_one]
    norm_num
  rw [h1, h2] at h
  simp only [projectXY, List.map_cons, List.map_nil, Option.some_inj,
    List.cons.injEq, Prod.mk.injEq] at h
  exact absurd h.1.1 (by norm_num)

/-! ## The plot target resolution (`TwoDFunnel.plot`) -/

/-- A rendering target: a caller-supplied axes object (tagged by an
identifier) or the process-wide `plt` context. -/
inductive RenderTarget where
  | axes : Nat → RenderTarget
  | plt : RenderTarget
deriving DecidableEq

/-- `kwargs.pop('ax', None)`, restricted to what `plot` does with the
result. -/
def kwargsPopAx (kwargs : List (String × Nat)) : Option Nat :=
  (kwargs.find? (fun kv => kv.1 == "ax")).map (fun kv => kv.2)

/-- The target `TwoDFunnel.plot` finally renders on: the declared parameter
`ax` is immediately shadowed by `ax = kwargs.pop('ax', None)`, and the
`if ax is None: ax = plt` fallback then applies to the reassigned value. -/
def plotRenderTarget (ax : Option Nat) (kwargs : List (String × Nat)) :
    RenderTarget :=
  let ax := kwargsPopAx kwargs
  match ax with
  | none => RenderTarget.plt
  | some a => RenderTarget.axes a

/-- C6 (code bug): in Python, a call `plot(ax=target)` binds the declared
parameter `ax`, so `kwargs` can never contain an `'ax'` key; the body's
`ax = kwargs.pop('ax', None)` therefore always yields `None`, and `plot`
always renders on the global `plt` context, silently discarding any
caller-supplied axes. -/
theorem plot_ax_discarded (ax : Option Nat) (kwargs : List (String × Nat))
    (hk : ∀ kv ∈ kwargs, kv.1 ≠ "ax") :
    plotRenderTarget ax kwargs = RenderTarget.plt := by
  have hfind : kwargs.find? (fun kv => kv.1 == "ax") = none := by
    rw [List.find?_eq_none]
    intro kv hkv
    simpa using hk kv hkv
  simp [plotRenderTarget, kwargsPopAx, hfind]

/-- Witness for C6: the notebook's own call `TwoDFunnel.plot(ax=plt.gca())`
(axes tag 1, no extra keyword arguments) renders on `plt`, not on the
supplied axes. -/
theorem plot_ax_discarded_witness :
    (∀ kv ∈ ([] : List (String × Nat)), kv.1 ≠ "ax") ∧
      plotRenderTarget (some 1) [] = RenderTarget.plt :=
  ⟨fun kv h => absurd h (List.not_mem_nil kv),
   plot_ax_discarded (some 1) [] (fun kv h => absurd h (List.not_mem_nil kv))⟩

/-! ## Ensemble configuration and system construction -/

/-- The ensemble parameters of the notebook's parameter cell (numeric values
only; the units are fixed by the notebook). -/
structure EnsembleConfig where
  nParticles : Int
  mass : ℚ
  temperature : ℚ
  friction : ℚ
  timestep : ℚ

/-- "Invalid ensemble parameters" in the sense of the specification:
non-positive mass, non-positive timestep, or zero/negative particle count. -/
def invalidConfig (cfg : EnsembleConfig) : Bool :=
  cfg.mass ≤ 0 || cfg.timestep ≤ 0 || cfg.nParticles ≤ 0

/-- The configuration error the specification asks for. -/
inductive ConfigError where
  | invalidParameters
deriving DecidableEq

/-- The engine objects the notebook builds: the per-particle masses added to
`mm.System()`, the particle indices registered with the custom force, and
the `LangevinMiddleIntegrator` parameters. -/
structure EngineObjects where
  systemMasses : List ℚ
  forceParticleIndices : List Nat
  integratorParams : ℚ × ℚ × ℚ
deriving DecidableEq

/-- Python's `range(n)` (empty for `n ≤ 0`). -/
def pyRange (n : Int) : List Nat := List.range n.toNat

/-- The notebook's construction pipeline, embedded verbatim: it checks
nothing, adds `nParticles` particles of mass `mass` to the system and the
force, and builds the integrator from temperature, friction and timestep. -/
def buildEngine (cfg : EnsembleConfig) : Except ConfigError EngineObjects :=
  Except.ok
    { systemMasses := (pyRange cfg.nParticles).map (fun _ => cfg.mass)
      forceParticleIndices := pyRange cfg.nParticles
      integratorParams := (cfg.temperature, cfg.friction, cfg.timestep) }

/-- C7 counterexample: a configuration with zero particles, negative mass
and negative timestep is invalid, yet the pipeline constructs the engine
objects and raises no configuration error. -/
theorem buildEngine_counterexample :
    invalidConfig ⟨0, -1, 750, 100, -10⟩ = true ∧
      buildEngine ⟨0, -1, 750, 100, -10⟩
        = Except.ok ⟨[], [], (750, 100, -10)⟩ := by
  constructor
  · rw [invalidConfig]
    simp only [Bool.or_eq_true, decide_eq_true_eq]
    left
    norm_num
  · rfl

/-- C7 (amended): the notebook validates nothing: for every configuration,
valid or not, the pipeline returns the constructed engine objects and never
raises a configuration error. -/
theorem buildEngine_never_rejects (cfg : EnsembleConfig) :
    ∃ eng, buildEngine cfg = Except.ok eng :=
  ⟨_, rfl⟩
